import Mathlib

/-
  Shallow embedding of the Tic-Tac-Toe game core from
  src/tic_tac_toe_frontend/src/App.js.

  A board cell holds `none` (the JS `null`) or `some m` for a mark `m`.
  The core functions `calculateWinner`, `availableMoves` and
  `computeAIMove` are generic in the mark type (the JS code compares
  marks with `===`); the orchestration layer fixes the marks to the two
  concrete symbols X and O.

  `calculateWinner` reads `board[a]` with a default of empty: in JS an
  out-of-range read yields `undefined`, which behaves exactly like
  `null` in the truthiness test `board[a] && ...`, so `List.getD` is a
  faithful model on boards of any length.  The advisor claims all
  concern 9-cell boards, on which `board[i] === null` coincides with
  `(cell b i).isNone`.

  The two `Math.random()` draws of `computeAIMove` (corner and side
  tie-breaks) are modelled by two natural-number parameters `rc`, `rs`;
  the JS index `Math.floor(Math.random() * len)` ranges over `[0, len)`
  and is modelled as `rc % len`, so every concrete random outcome is
  some value of the parameter and every parameter value is an in-range
  index.
-/

namespace TicTacToe

variable {α : Type} [DecidableEq α]

/-- A cell read `board[i]`, with out-of-range reads behaving as empty. -/
def cell (b : List (Option α)) (i : Nat) : Option α := b.getD i none

/-- An index triple, one of the 8 win lines. -/
abbrev TLine := Nat × Nat × Nat

/-- The 8 fixed lines: rows, then columns, then diagonals (App.js LINES). -/
def LINES : List TLine :=
  [(0,1,2), (3,4,5), (6,7,8),
   (0,3,6), (1,4,7), (2,5,8),
   (0,4,8), (2,4,6)]

/-- The derived result of evaluating a board. `calculateWinner` returns
`{winner: mark, line}` for a win, `{winner: 'draw', line: []}` for a draw
and `{winner: null, line: []}` while in progress. -/
inductive Outcome (α : Type) where
  | win (m : α) (line : TLine)
  | draw
  | inProgress
deriving DecidableEq

/-- The body of the loop of `calculateWinner`: the condition
`board[a] && board[a] === board[b] && board[b] === board[c]`
yields the mark of line `l` when all three of its cells hold the same
non-empty mark. -/
def lineWinner (b : List (Option α)) (l : TLine) : Option α :=
  match cell b l.1 with
  | none => none
  | some m => if cell b l.2.1 = some m ∧ cell b l.2.2 = some m then some m else none

/-- The loop of `calculateWinner`: first line of `ls` with a winner. -/
def findWin (b : List (Option α)) : List TLine → Option (α × TLine)
  | [] => none
  | l :: rest =>
    match lineWinner b l with
    | some m => some (m, l)
    | none => findWin b rest

/-- `calculateWinner(board)` from App.js: first complete line wins,
otherwise draw when `board.every(Boolean)`, otherwise in progress. -/
def calculateWinner (b : List (Option α)) : Outcome α :=
  match findWin b LINES with
  | some (m, l) => Outcome.win m l
  | none => if b.all (fun c => c.isSome) then Outcome.draw else Outcome.inProgress

/-- `availableMoves(board)`: the indices of empty cells, ascending. -/
def availableMoves (b : List (Option α)) : List Nat :=
  (List.range b.length).filter (fun i => (cell b i).isNone)

/-- The JS comparison `calculateWinner(copy).winner === mk`. -/
def isWinnerFor (o : Outcome α) (mk : α) : Bool :=
  match o with
  | Outcome.win w _ => decide (w = mk)
  | _ => false

/-- Simulate placing `mk` at `i` and test `calculateWinner(copy).winner === mk`
(the loop bodies of steps 1 and 2 of `computeAIMove`). -/
def winsAt (b : List (Option α)) (mk : α) (i : Nat) : Bool :=
  isWinnerFor (calculateWinner (b.set i (some mk))) mk

/-- `[0, 2, 6, 8].filter(i => board[i] === null)` from `computeAIMove`. -/
def emptyCorners (b : List (Option α)) : List Nat :=
  [0, 2, 6, 8].filter (fun i => (cell b i).isNone)

/-- `[1, 3, 5, 7].filter(i => board[i] === null)` from `computeAIMove`. -/
def emptySides (b : List (Option α)) : List Nat :=
  [1, 3, 5, 7].filter (fun i => (cell b i).isNone)

/-- `computeAIMove(board, ai, human)` from App.js: win if possible, block
the human win, take the center, take a random empty corner, take a random
empty side, else the first available move or `null`. -/
def computeAIMove (b : List (Option α)) (ai human : α) (rc rs : Nat) : Option Nat :=
  let moves := availableMoves b
  match moves.find? (fun m => winsAt b ai m) with
  | some m => some m
  | none =>
    match moves.find? (fun m => winsAt b human m) with
    | some m => some m
    | none =>
      if cell b 4 = none then some 4
      else
        let corners := emptyCorners b
        if hc : corners.length ≠ 0 then
          some (corners.get ⟨rc % corners.length, Nat.mod_lt rc (Nat.pos_of_ne_zero hc)⟩)
        else
          let sides := emptySides b
          if hs : sides.length ≠ 0 then
            some (sides.get ⟨rs % sides.length, Nat.mod_lt rs (Nat.pos_of_ne_zero hs)⟩)
          else
            match moves with
            | [] => none
            | m :: _ => some m

/-- The two concrete marks used by the orchestration layer of App.js. -/
inductive Mk where
  | X
  | O
deriving DecidableEq

/-- Line `l` is complete for mark `m`: all three referenced cells hold `m`. -/
def lineHolds (b : List (Option α)) (l : TLine) (m : α) : Prop :=
  cell b l.1 = some m ∧ cell b l.2.1 = some m ∧ cell b l.2.2 = some m

instance (b : List (Option α)) (l : TLine) (m : α) : Decidable (lineHolds b l m) := by
  unfold lineHolds; infer_instance

/-- The game mode: player-vs-computer or player-vs-player. -/
inductive Mode where
  | pvc
  | pvp
deriving DecidableEq

/-- The component state of `App` that the game logic touches: the board,
whose turn it is, the mode and the pending-AI-move flag. -/
structure GState where
  board : List (Option Mk)
  xIsNext : Bool
  mode : Mode
  aiThinking : Bool
deriving DecidableEq

/-- The fresh board of App.js: 9 empty cells. -/
def initialBoard : List (Option Mk) := List.replicate 9 none

/-- The initial component state of `App`. -/
def initState : GState :=
  { board := initialBoard, xIsNext := true, mode := Mode.pvc, aiThinking := false }

/-- Truthiness of the JS value `calculateWinner(board).winner`, which is
`null` exactly while the game is in progress. -/
def winnerTruthy (o : Outcome Mk) : Bool :=
  match o with
  | Outcome.inProgress => false
  | _ => true

/-- `handleSquareClick(i)` from App.js: ignore the click when the game is
decided, the cell is occupied, or the computer is about to move; otherwise
write the mark of the side to move into cell `i` and flip the turn. -/
def handleSquareClick (s : GState) (i : Nat) : GState :=
  if winnerTruthy (calculateWinner s.board) ||
      (cell s.board i).isSome ||
      (decide (s.mode = Mode.pvc) && s.aiThinking) then s
  else
    { s with
      board := s.board.set i (some (if s.xIsNext then Mk.X else Mk.O)),
      xIsNext := !s.xIsNext }

/-- The body of the AI effect of `App` once its timer fires: play the
computed move for O when one exists and hand the turn back to X; in either
case clear the pending flag. -/
def aiStep (s : GState) (rc rs : Nat) : GState :=
  match computeAIMove s.board Mk.O Mk.X rc rs with
  | some m =>
    { s with board := s.board.set m (some Mk.O), xIsNext := true, aiThinking := false }
  | none => { s with aiThinking := false }

/-- `resetBoard()` from App.js: fresh board, X to move, no pending AI move. -/
def resetBoard (s : GState) : GState :=
  { s with board := initialBoard, xIsNext := true, aiThinking := false }

/-- The guard of the AI effect in `App`: pvc mode, game not decided, O to
move. -/
def aiGuard (s : GState) : Prop :=
  s.mode = Mode.pvc ∧ winnerTruthy (calculateWinner s.board) = false ∧ s.xIsNext = false

/-- One transition of `App`: a click on one of the 9 rendered squares, the
AI effect marking itself pending or playing its move, a round reset (New
Round / Reset Scores), or a mode switch (which also starts a new match). -/
inductive Step : GState → GState → Prop where
  | click (s : GState) (i : Nat) (hi : i < 9) : Step s (handleSquareClick s i)
  | aiThink (s : GState) (h : aiGuard s) : Step s { s with aiThinking := true }
  | aiMove (s : GState) (rc rs : Nat) (h : aiGuard s) : Step s (aiStep s rc rs)
  | reset (s : GState) : Step s (resetBoard s)
  | switchMode (s : GState) (m : Mode) : Step s { resetBoard s with mode := m }

/-- A state reachable from the initial `App` state through the UI. -/
def Reachable (s : GState) : Prop := Relation.ReflTransGen Step initState s

theorem lineWinner_eq_some_iff (b : List (Option α)) (l : TLine) (m : α) :
    lineWinner b l = some m ↔ lineHolds b l m := by
  cases h1 : cell b l.1 with
  | none => simp [lineWinner, lineHolds, h1]
  | some a =>
    simp only [lineWinner, lineHolds, h1, Option.some.injEq]
    by_cases h2 : cell b l.2.1 = some a ∧ cell b l.2.2 = some a
    · rw [if_pos h2]
      constructor
      · intro h
        have ha : a = m := (Option.some.injEq a m).mp h
        subst ha
        exact ⟨rfl, h2.1, h2.2⟩
      · rintro ⟨rfl, _, _⟩
        rfl
    · rw [if_neg h2]
      constructor
      · intro h
        exact Option.noConfusion h
      · rintro ⟨rfl, hb, hc⟩
        exact (h2 ⟨hb, hc⟩).elim

theorem lineWinner_eq_none_iff (b : List (Option α)) (l : TLine) :
    lineWinner b l = none ↔ ∀ m : α, ¬ lineHolds b l m := by
  constructor
  · intro h m hm
    rw [← lineWinner_eq_some_iff] at hm
    rw [h] at hm
    cases hm
  · intro h
    cases hw : lineWinner b l with
    | none => rfl
    | some m => exact absurd ((lineWinner_eq_some_iff b l m).mp hw) (h m)

theorem findWin_eq_none (b : List (Option α)) (ls : List TLine)
    (h : ∀ l ∈ ls, lineWinner b l = none) : findWin b ls = none := by
  induction ls with
  | nil => rfl
  | cons l t ih =>
    have h0 : lineWinner b l = none := h l (by simp)
    simp only [findWin, h0]
    exact ih (fun x hx => h x (by simp [hx]))

theorem findWin_eq_some (b : List (Option α)) (d : TLine) :
    ∀ (ls : List TLine) (i : Nat) (m : α), i < ls.length →
      lineWinner b (ls.getD i d) = some m →
      (∀ j : Nat, j < i → lineWinner b (ls.getD j d) = none) →
      findWin b ls = some (m, ls.getD i d) := by
  intro ls
  induction ls with
  | nil =>
    intro i m hi
    simp at hi
  | cons l t ih =>
    intro i m hi hwin hnone
    cases i with
    | zero =>
      simp only [List.getD_cons_zero] at hwin ⊢
      simp only [findWin, hwin]
    | succ j =>
      have h0 : lineWinner b l = none := by
        have := hnone 0 (Nat.succ_pos j)
        simpa using this
      simp only [findWin, h0, List.getD_cons_succ] at *
      exact ih j m (Nat.lt_of_succ_lt_succ hi) hwin
        (fun k hk => by simpa using hnone (k + 1) (Nat.succ_lt_succ hk))

theorem sorted_availableMoves (b : List (Option α)) :
    (availableMoves b).Pairwise (· < ·) :=
  (List.pairwise_lt_range b.length).filter _

theorem mem_availableMoves (b : List (Option α)) (i : Nat) :
    i ∈ availableMoves b ↔ i < b.length ∧ cell b i = none := by
  unfold availableMoves
  simp [List.mem_filter, List.mem_range, Option.isNone_iff_eq_none]

theorem availableMoves_eq_nil (b : List (Option α)) :
    availableMoves b = [] ↔ ∀ i, i < b.length → cell b i ≠ none := by
  constructor
  · intro h i hi hc
    have : i ∈ availableMoves b := (mem_availableMoves b i).mpr ⟨hi, hc⟩
    rw [h] at this
    cases this
  · intro h
    cases hm : availableMoves b with
    | nil => rfl
    | cons x t =>
      have hx : x ∈ availableMoves b := by rw [hm]; exact List.mem_cons_self x t
      have := (mem_availableMoves b x).mp hx
      exact absurd this.2 (h x this.1)

theorem find?_eq_some_sorted {p : Nat → Bool} :
    ∀ {l : List Nat}, l.Pairwise (· < ·) → ∀ {x : Nat}, x ∈ l → p x = true →
      (∀ y ∈ l, y < x → p y = false) → l.find? p = some x := by
  intro l
  induction l with
  | nil =>
    intro _ x hx
    cases hx
  | cons a t ih =>
    intro hs x hx hpx hmin
    by_cases hpa : p a = true
    · have hxa : x = a := by
        rcases List.mem_cons.mp hx with rfl | hxt
        · rfl
        · have hax : a < x := (List.pairwise_cons.mp hs).1 x hxt
          have := hmin a (List.mem_cons_self a t) hax
          rw [hpa] at this
          cases this
      subst hxa
      exact List.find?_cons_of_pos t hpa
    · have hxt : x ∈ t := by
        rcases List.mem_cons.mp hx with rfl | h
        · exact absurd hpx hpa
        · exact h
      rw [List.find?_cons_of_neg t hpa]
      exact ih (List.pairwise_cons.mp hs).2 hxt hpx
        (fun y hy hyx => hmin y (List.mem_cons_of_mem a hy) hyx)

/-- C1: for every 9-cell board, `calculateWinner` returns a win for the first
line (in the fixed enumeration rows, columns, diagonals) whose three cells
hold the same non-empty mark; when no line is complete it returns a draw if
every cell is non-empty and in-progress otherwise. -/
theorem evaluate_first_line_spec (b : List (Option α)) (h9 : b.length = 9) :
    (∀ i : Nat, ∀ m : α, i < LINES.length →
        lineHolds b (LINES.getD i (0, 0, 0)) m →
        (∀ j : Nat, ∀ m' : α, j < i → ¬ lineHolds b (LINES.getD j (0, 0, 0)) m') →
        calculateWinner b = Outcome.win m (LINES.getD i (0, 0, 0))) ∧
    ((∀ l ∈ LINES, ∀ m : α, ¬ lineHolds b l m) →
        ((∀ c ∈ b, c ≠ none) → calculateWinner b = Outcome.draw) ∧
        ((∃ c ∈ b, c = none) → calculateWinner b = Outcome.inProgress)) := by
  constructor
  · intro i m hi hholds hfirst
    have hwin : lineWinner b (LINES.getD i (0, 0, 0)) = some m :=
      (lineWinner_eq_some_iff b _ m).mpr hholds
    have hnone : ∀ j : Nat, j < i → lineWinner b (LINES.getD j (0, 0, 0)) = none := by
      intro j hj
      exact (lineWinner_eq_none_iff b _).mpr (fun m' => hfirst j m' hj)
    have := findWin_eq_some b (0, 0, 0) LINES i m hi hwin hnone
    unfold calculateWinner
    rw [this]
  · intro hno
    have hfw : findWin b LINES = none :=
      findWin_eq_none b LINES
        (fun l hl => (lineWinner_eq_none_iff b l).mpr (hno l hl))
    constructor
    · intro hall
      unfold calculateWinner
      rw [hfw]
      have : b.all (fun c => c.isSome) = true := by
        rw [List.all_eq_true]
        intro c hc
        exact Option.isSome_iff_ne_none.mpr (hall c hc)
      rw [if_pos this]
    · intro hex
      unfold calculateWinner
      rw [hfw]
      have : b.all (fun c => c.isSome) = false := by
        rcases hex with ⟨c, hc, rfl⟩
        rw [List.all_eq_false]
        exact ⟨none, hc, by simp⟩
      rw [this]
      simp

/-- Witness for C1 at a concrete board whose first row is complete. -/
theorem evaluate_first_line_spec_witness :
    calculateWinner
      [some Mk.X, some Mk.X, some Mk.X, none, none, none, none, none, none] =
      Outcome.win Mk.X (0, 1, 2) :=
  (evaluate_first_line_spec
      [some Mk.X, some Mk.X, some Mk.X, none, none, none, none, none, none]
      (by decide)).1 0 Mk.X (by decide) (by decide)
    (fun j m' hj => absurd hj (Nat.not_lt_zero j))

/-- C2: whenever some empty cell lets the advisor complete a line at once,
`computeAIMove` returns the first such cell in ascending index order, even
when a blocking move is also available. -/
theorem chooseMove_win_priority (b : List (Option α)) (ai human : α) (rc rs : Nat)
    (h9 : b.length = 9) (hne : ai ≠ human) (i : Nat)
    (hmem : i ∈ availableMoves b)
    (hwin : winsAt b ai i = true)
    (hfirst : ∀ j ∈ availableMoves b, j < i → winsAt b ai j = false) :
    computeAIMove b ai human rc rs = some i := by
  have h : (availableMoves b).find? (fun m => winsAt b ai m) = some i :=
    find?_eq_some_sorted (sorted_availableMoves b) hmem hwin hfirst
  simp only [computeAIMove, h]

/-- Witness for C2: O completes the top row at cell 2 although blocking X
at cell 5 is also available. -/
theorem chooseMove_win_priority_witness :
    computeAIMove
      [some Mk.O, some Mk.O, none, some Mk.X, some Mk.X, none, none, none, none]
      Mk.O Mk.X 0 0 = some 2 :=
  chooseMove_win_priority
    [some Mk.O, some Mk.O, none, some Mk.X, some Mk.X, none, none, none, none]
    Mk.O Mk.X 0 0 (by decide) (by decide) 2 (by decide) (by decide) (by decide)

/-- C3: when no empty cell gives the advisor an immediate win but some
empty cell would let the opponent win, `computeAIMove` returns the first
such blocking cell in ascending index order. -/
theorem chooseMove_block (b : List (Option α)) (ai human : α) (rc rs : Nat)
    (h9 : b.length = 9) (hne : ai ≠ human)
    (hnowin : ∀ j ∈ availableMoves b, winsAt b ai j = false) (i : Nat)
    (hmem : i ∈ availableMoves b)
    (hblk : winsAt b human i = true)
    (hfirst : ∀ j ∈ availableMoves b, j < i → winsAt b human j = false) :
    computeAIMove b ai human rc rs = some i := by
  have h1 : (availableMoves b).find? (fun m => winsAt b ai m) = none :=
    List.find?_eq_none.mpr (fun x hx => by simp [hnowin x hx])
  have h2 : (availableMoves b).find? (fun m => winsAt b human m) = some i :=
    find?_eq_some_sorted (sorted_availableMoves b) hmem hblk hfirst
  simp only [computeAIMove, h1, h2]

/-- Witness for C3: X threatens the top row, O cannot win at once, and the
first blocking cell is 2. -/
theorem chooseMove_block_witness :
    computeAIMove
      [some Mk.X, some Mk.X, none, none, some Mk.O, none, none, none, none]
      Mk.O Mk.X 0 0 = some 2 :=
  chooseMove_block
    [some Mk.X, some Mk.X, none, none, some Mk.O, none, none, none, none]
    Mk.O Mk.X 0 0 (by decide) (by decide) (by decide) 2 (by decide) (by decide)
    (by decide)

/-- C5: when neither a win nor a block is available and the center cell 4
is empty, `computeAIMove` returns 4. -/
theorem chooseMove_center (b : List (Option α)) (ai human : α) (rc rs : Nat)
    (h9 : b.length = 9) (hne : ai ≠ human)
    (hnw : ∀ j ∈ availableMoves b, winsAt b ai j = false)
    (hnb : ∀ j ∈ availableMoves b, winsAt b human j = false)
    (hc : cell b 4 = none) :
    computeAIMove b ai human rc rs = some 4 := by
  have h1 : (availableMoves b).find? (fun m => winsAt b ai m) = none :=
    List.find?_eq_none.mpr (fun x hx => by simp [hnw x hx])
  have h2 : (availableMoves b).find? (fun m => winsAt b human m) = none :=
    List.find?_eq_none.mpr (fun x hx => by simp [hnb x hx])
  simp only [computeAIMove, h1, h2, if_pos hc]

/-- Witness for C5: on the fully empty board with advisor O and opponent X
the returned move is the center. -/
theorem chooseMove_center_witness :
    computeAIMove (List.replicate 9 (none : Option Mk)) Mk.O Mk.X 0 0 = some 4 :=
  chooseMove_center (List.replicate 9 (none : Option Mk)) Mk.O Mk.X 0 0
    (by decide) (by decide) (by decide) (by decide) (by decide)

theorem corner_mem_availableMoves {b : List (Option α)} (h9 : b.length = 9) {i : Nat}
    (h : i ∈ emptyCorners b) : i ∈ availableMoves b := by
  unfold emptyCorners at h
  rw [List.mem_filter] at h
  refine (mem_availableMoves b i).mpr ⟨?_, Option.isNone_iff_eq_none.mp h.2⟩
  have hm := h.1
  fin_cases hm <;> omega

theorem side_mem_availableMoves {b : List (Option α)} (h9 : b.length = 9) {i : Nat}
    (h : i ∈ emptySides b) : i ∈ availableMoves b := by
  unfold emptySides at h
  rw [List.mem_filter] at h
  refine (mem_availableMoves b i).mpr ⟨?_, Option.isNone_iff_eq_none.mp h.2⟩
  have hm := h.1
  fin_cases hm <;> omega

theorem computeAIMove_mem {b : List (Option α)} {ai human : α} {rc rs i : Nat}
    (h9 : b.length = 9) (h : computeAIMove b ai human rc rs = some i) :
    i ∈ availableMoves b := by
  simp only [computeAIMove] at h
  split at h
  next m hm =>
    cases h
    exact List.mem_of_find?_eq_some hm
  next =>
    split at h
    next m hm =>
      cases h
      exact List.mem_of_find?_eq_some hm
    next =>
      split at h
      next hc4 =>
        cases h
        exact (mem_availableMoves b 4).mpr ⟨by omega, hc4⟩
      next hc4 =>
        split at h
        next hlen =>
          cases h
          exact corner_mem_availableMoves h9 (List.get_mem _ _ _)
        next hlen =>
          split at h
          next hslen =>
            cases h
            exact side_mem_availableMoves h9 (List.get_mem _ _ _)
          next hslen =>
            split at h
            next hnil => exact Option.noConfusion h
            next m t hmoves =>
              cases h
              rw [hmoves]
              exact List.mem_cons_self _ _

theorem computeAIMove_isSome {b : List (Option α)} (ai human : α) (rc rs : Nat)
    (hne : availableMoves b ≠ []) :
    ∃ i, computeAIMove b ai human rc rs = some i := by
  cases hm : (availableMoves b).find? (fun m => winsAt b ai m) with
  | some m => exact ⟨m, by simp only [computeAIMove, hm]⟩
  | none =>
    cases hm2 : (availableMoves b).find? (fun m => winsAt b human m) with
    | some m => exact ⟨m, by simp only [computeAIMove, hm, hm2]⟩
    | none =>
      by_cases hc4 : cell b 4 = none
      · exact ⟨4, by simp only [computeAIMove, hm, hm2, if_pos hc4]⟩
      · by_cases hcor : (emptyCorners b).length ≠ 0
        · refine ⟨(emptyCorners b).get
            ⟨rc % (emptyCorners b).length, Nat.mod_lt rc (Nat.pos_of_ne_zero hcor)⟩, ?_⟩
          simp only [computeAIMove, hm, hm2, if_neg hc4]
          rw [dif_pos hcor]
        · by_cases hsid : (emptySides b).length ≠ 0
          · refine ⟨(emptySides b).get
              ⟨rs % (emptySides b).length, Nat.mod_lt rs (Nat.pos_of_ne_zero hsid)⟩, ?_⟩
            simp only [computeAIMove, hm, hm2, if_neg hc4]
            rw [dif_neg hcor, dif_pos hsid]
          · cases hmv : availableMoves b with
            | nil => exact absurd hmv hne
            | cons m t =>
              refine ⟨m, ?_⟩
              simp only [computeAIMove, hm, hm2, if_neg hc4]
              rw [dif_neg hcor, dif_neg hsid, hmv]

theorem computeAIMove_eq_none {b : List (Option α)} {ai human : α} (rc rs : Nat)
    (h9 : b.length = 9) (h : availableMoves b = []) :
    computeAIMove b ai human rc rs = none := by
  have hfull : ∀ i, i < b.length → cell b i ≠ none := (availableMoves_eq_nil b).mp h
  have hc4 : ¬ cell b 4 = none := hfull 4 (by omega)
  have hcor : emptyCorners b = [] := by
    unfold emptyCorners
    rw [List.filter_eq_nil_iff]
    intro a ha
    have : cell b a ≠ none := by fin_cases ha <;> exact hfull _ (by omega)
    simp [Option.isNone_iff_eq_none, this]
  have hsid : emptySides b = [] := by
    unfold emptySides
    rw [List.filter_eq_nil_iff]
    intro a ha
    have : cell b a ≠ none := by fin_cases ha <;> exact hfull _ (by omega)
    simp [Option.isNone_iff_eq_none, this]
  have hcor0 : ¬ (emptyCorners b).length ≠ 0 := by simp [hcor]
  have hsid0 : ¬ (emptySides b).length ≠ 0 := by simp [hsid]
  simp only [computeAIMove, h, List.find?_nil, if_neg hc4]
  rw [dif_neg hcor0, dif_neg hsid0]

/-- C4: on a 9-cell board, `computeAIMove` returns the index of a currently
empty cell whenever one exists, and returns the JS `null` exactly when the
board is full. -/
theorem chooseMove_total (b : List (Option α)) (ai human : α) (rc rs : Nat)
    (h9 : b.length = 9) :
    (availableMoves b ≠ [] →
       ∃ i, computeAIMove b ai human rc rs = some i ∧
         i ∈ availableMoves b ∧ cell b i = none) ∧
    (availableMoves b = [] → computeAIMove b ai human rc rs = none) := by
  constructor
  · intro hne
    obtain ⟨i, hi⟩ := computeAIMove_isSome ai human rc rs hne
    have hmem := computeAIMove_mem h9 hi
    exact ⟨i, hi, hmem, ((mem_availableMoves b i).mp hmem).2⟩
  · intro hfull
    exact computeAIMove_eq_none rc rs h9 hfull

/-- Witness for C4 at a full drawn board: no move is available. -/
theorem chooseMove_total_witness :
    computeAIMove
      [some Mk.X, some Mk.O, some Mk.X,
       some Mk.X, some Mk.O, some Mk.O,
       some Mk.O, some Mk.X, some Mk.X] Mk.O Mk.X 0 0 = none :=
  (chooseMove_total
      [some Mk.X, some Mk.O, some Mk.X,
       some Mk.X, some Mk.O, some Mk.O,
       some Mk.O, some Mk.X, some Mk.X] Mk.O Mk.X 0 0 (by decide)).2 (by decide)

/-- C6: when neither a win nor a block exists and the center is occupied,
`computeAIMove` returns a member of the set of empty corners whenever one
exists; a side is returned only when no corner is empty, and then the
result is a member of the set of empty sides.  The random tie-break is
quantified over the draws `rc`, `rs`. -/
theorem chooseMove_corner_side (b : List (Option α)) (ai human : α) (rc rs : Nat)
    (h9 : b.length = 9) (hne : ai ≠ human)
    (hnw : ∀ j ∈ availableMoves b, winsAt b ai j = false)
    (hnb : ∀ j ∈ availableMoves b, winsAt b human j = false)
    (hc : cell b 4 ≠ none) :
    (emptyCorners b ≠ [] →
       ∃ i, computeAIMove b ai human rc rs = some i ∧ i ∈ emptyCorners b) ∧
    (emptyCorners b = [] → emptySides b ≠ [] →
       ∃ i, computeAIMove b ai human rc rs = some i ∧ i ∈ emptySides b) := by
  have h1 : (availableMoves b).find? (fun m => winsAt b ai m) = none :=
    List.find?_eq_none.mpr (fun x hx => by simp [hnw x hx])
  have h2 : (availableMoves b).find? (fun m => winsAt b human m) = none :=
    List.find?_eq_none.mpr (fun x hx => by simp [hnb x hx])
  constructor
  · intro hcor
    have hlen : (emptyCorners b).length ≠ 0 := by
      simpa [List.length_eq_zero] using hcor
    refine ⟨(emptyCorners b).get
        ⟨rc % (emptyCorners b).length, Nat.mod_lt rc (Nat.pos_of_ne_zero hlen)⟩,
      ?_, List.get_mem _ _ _⟩
    simp only [computeAIMove, h1, h2, if_neg hc]
    rw [dif_pos hlen]
  · intro hcor hsid
    have hlen0 : ¬ (emptyCorners b).length ≠ 0 := by simp [hcor]
    have hslen : (emptySides b).length ≠ 0 := by
      simpa [List.length_eq_zero] using hsid
    refine ⟨(emptySides b).get
        ⟨rs % (emptySides b).length, Nat.mod_lt rs (Nat.pos_of_ne_zero hslen)⟩,
      ?_, List.get_mem _ _ _⟩
    simp only [computeAIMove, h1, h2, if_neg hc]
    rw [dif_neg hlen0, dif_pos hslen]

/-- Witness for C6: only the center is taken, so the move is one of the
four empty corners. -/
theorem chooseMove_corner_side_witness :
    ∃ i, computeAIMove
        [none, none, none, none, some Mk.O, none, none, none, none]
        Mk.O Mk.X 0 0 = some i ∧
      i ∈ emptyCorners [none, none, none, none, some Mk.O, none, none, none, none] :=
  (chooseMove_corner_side
      [none, none, none, none, some Mk.O, none, none, none, none]
      Mk.O Mk.X 0 0 (by decide) (by decide) (by decide) (by decide) (by decide)).1
    (by decide)

/-- C7 counterexample: `calculateWinner` does not reject a malformed board
shape.  On the 0-cell board it returns the ordinary Outcome draw (the
`every(Boolean)` check is vacuously true), rather than failing fast. -/
theorem evaluate_no_shape_check_counterexample :
    calculateWinner ([] : List (Option Mk)) = Outcome.draw ∧
      ([] : List (Option Mk)).length ≠ 9 := by
  decide

/-- C7 amended: `calculateWinner` performs no shape validation; on inputs
with other than 9 cells it silently reads missing cells as empty and
returns a plausible ordinary Outcome: draw on the empty board, a win on a
3-cell completed row, in-progress on a 1-cell board. -/
theorem evaluate_no_shape_check :
    calculateWinner ([] : List (Option Mk)) = Outcome.draw ∧
    calculateWinner [some Mk.X, some Mk.X, some Mk.X] = Outcome.win Mk.X (0, 1, 2) ∧
    calculateWinner [(none : Option Mk)] = Outcome.inProgress := by
  decide

/-- C8 counterexample: on the board [X,O,X, O,X,O, _,_,_] the opponent X
CAN win in one move (cell 6 completes the 2-4-6 diagonal), contrary to the
scenario's premise; and the move 6 is produced with random draw 1, which
under the corner rule would have selected corner 8, so it is the block
rule, not corner preference, that fires. -/
theorem scenario_mixed_counterexample :
    winsAt
      [some Mk.X, some Mk.O, some Mk.X, some Mk.O, some Mk.X, some Mk.O,
       none, none, none] Mk.X 6 = true ∧
    computeAIMove
      [some Mk.X, some Mk.O, some Mk.X, some Mk.O, some Mk.X, some Mk.O,
       none, none, none] Mk.O Mk.X 1 1 = some 6 := by
  decide

/-- C8 amended: on the board [X,O,X, O,X,O, _,_,_] with advisor O and
opponent X, the opponent has one-move wins at 6 and 8; `computeAIMove`
returns 6 — the first blocking cell — for every random draw, an index in
the pair 6, 8 and never the side 7. -/
theorem scenario_mixed_block_move :
    ∀ rc rs : Nat,
      computeAIMove
        [some Mk.X, some Mk.O, some Mk.X, some Mk.O, some Mk.X, some Mk.O,
         none, none, none] Mk.O Mk.X rc rs = some 6 :=
  fun _ _ => rfl

/-- C9: on the board [X,X,_, _,O,_, _,_,_] with advisor O and opponent X,
no immediate win exists for O and the block rule returns exactly cell 2,
blocking the top-row win of X, for every random draw. -/
theorem scenario_block_returns_two :
    ∀ rc rs : Nat,
      computeAIMove
        [some Mk.X, some Mk.X, none, none, some Mk.O, none, none, none, none]
        Mk.O Mk.X rc rs = some 2 :=
  fun _ _ => rfl

theorem step_length {s s' : GState} (h9 : s.board.length = 9) (h : Step s s') :
    s'.board.length = 9 := by
  cases h with
  | click i hi =>
    unfold handleSquareClick
    split
    · exact h9
    · simpa using h9
  | aiThink hg => exact h9
  | aiMove rc rs hg =>
    unfold aiStep
    cases hm : computeAIMove s.board Mk.O Mk.X rc rs with
    | some m => simpa using h9
    | none => exact h9
  | reset => simp [resetBoard, initialBoard]
  | switchMode m => simp [resetBoard, initialBoard]

theorem step_board_change {s s' : GState} (h9 : s.board.length = 9) (h : Step s s') :
    s'.board = s.board ∨ s'.board = initialBoard ∨
      ∃ i mk, cell s.board i = none ∧ s'.board = s.board.set i (some mk) := by
  cases h with
  | click i hi =>
    unfold handleSquareClick
    split
    next => exact Or.inl rfl
    next hcond =>
      refine Or.inr (Or.inr ⟨i, if s.xIsNext then Mk.X else Mk.O, ?_, rfl⟩)
      simp only [Bool.or_eq_true, not_or] at hcond
      exact Option.not_isSome_iff_eq_none.mp (fun hc => hcond.1.2 hc)
  | aiThink hg => exact Or.inl rfl
  | aiMove rc rs hg =>
    unfold aiStep
    cases hm : computeAIMove s.board Mk.O Mk.X rc rs with
    | none => exact Or.inl rfl
    | some m =>
      refine Or.inr (Or.inr ⟨m, Mk.O, ?_, rfl⟩)
      exact ((mem_availableMoves _ m).mp (computeAIMove_mem h9 hm)).2
  | reset => exact Or.inr (Or.inl rfl)
  | switchMode m => exact Or.inr (Or.inl rfl)

theorem click_noop {s : GState} {i : Nat}
    (h : winnerTruthy (calculateWinner s.board) = true ∨
      (cell s.board i).isSome = true) :
    (handleSquareClick s i).board = s.board := by
  unfold handleSquareClick
  split
  next => rfl
  next hcond =>
    exfalso
    apply hcond
    rcases h with h | h <;> simp [h]

/-- C10: every state reachable from the initial `App` state has a board of
exactly 9 cells; every step either leaves the board unchanged, resets it,
or writes exactly one currently-empty cell to a mark; and a click on an
occupied cell or a decided board leaves the board unchanged. -/
theorem board_invariants (s : GState) (h : Reachable s) :
    s.board.length = 9 ∧
    (∀ s', Step s s' →
        s'.board = s.board ∨ s'.board = initialBoard ∨
        ∃ i mk, cell s.board i = none ∧ s'.board = s.board.set i (some mk)) ∧
    (∀ i : Nat,
        winnerTruthy (calculateWinner s.board) = true ∨
          (cell s.board i).isSome = true →
        (handleSquareClick s i).board = s.board) := by
  have h9 : s.board.length = 9 := by
    induction h with
    | refl => rfl
    | tail hst hstep ih => exact step_length ih hstep
  exact ⟨h9, fun s' hs => step_board_change h9 hs, fun i hi => click_noop hi⟩

/-- Witness for C10 at the initial state, reachable by the empty run. -/
theorem board_invariants_witness :
    initState.board.length = 9 ∧
    (∀ s', Step initState s' →
        s'.board = initState.board ∨ s'.board = initialBoard ∨
        ∃ i mk, cell initState.board i = none ∧
          s'.board = initState.board.set i (some mk)) ∧
    (∀ i : Nat,
        winnerTruthy (calculateWinner initState.board) = true ∨
          (cell initState.board i).isSome = true →
        (handleSquareClick initState i).board = initState.board) :=
  board_invariants initState Relation.ReflTransGen.refl

end TicTacToe
